import Mathlib

/-!
Verification of the core of the `image_view` repository (`src/app.cpp`): the
image cache and prefetch subsystem (`GetBitmapAt`, `PreloadAround`), the
navigation index logic (`ShowImageAtIndex`, the index reset in `EnumFiles`),
the rotate-and-resave operation (`Rotate90AndResave`, `SetExifOrientation`)
and the display transform (`CalcRectAndMatrix`).

Modelling conventions, shared by all definitions below:

* File paths (`std::wstring` keys) are abstracted as naturals (`Path`).
  The temporary-file names the source builds by string suffixing
  (`p + L".tmp"`, `p + L".tmp_exif"`) are modelled by an injective encoding
  that never collides with the base path, mirroring the fact that a suffixed
  string never equals the original string.
* Decoded images (`Gdiplus::Bitmap`) are ref-counted shared objects that can
  be mutated in place (`RotateFlip`).  They are modelled by a heap: the cache
  stores bitmap identifiers (`BmpId`), and a separate association list maps
  identifiers to abstract pixel contents (`Pixels`).  Sharing an identifier
  models `std::shared_ptr` aliasing.
* `Bitmap::FromFile` (decoding) is an opaque external operation and is passed
  in as an oracle `decode : Path → Option Pixels`; `Save` outcomes and the
  EXIF property queries inside `SetExifOrientation` are likewise oracles
  (booleans), since the spec treats decode/encode as black boxes.
* `std::map` is ordered by key; it is modelled as an association list kept
  sorted in strictly increasing key order, so that `erase(begin())` is
  removal of the head (the least key).
* C++ `%` on `int` is truncated remainder, modelled by `Int.tmod`.
* `double` arithmetic in `CalcRectAndMatrix` is modelled exactly over `ℚ`;
  the C cast `(int)` (truncation toward zero) is modelled by `cint`.
  The concrete inputs used in the theorems below keep all intermediate
  values far from the nearest integer boundary, so exact rational and IEEE
  double evaluation truncate to the same integers there.
-/

namespace ImageView

/-- Abstract file path (key of `g_cache`, element of `g_files`). -/
abbrev Path := Nat

/-- Abstract decoded pixel contents of a `Gdiplus::Bitmap`. -/
abbrev Pixels := Nat

/-- Identifier of a shared in-memory bitmap object (`shared_ptr<Bitmap>`). -/
abbrev BmpId := Nat

/-- The `g_cache` map: `std::map<std::wstring, shared_ptr<Bitmap>>`,
kept sorted by key in strictly increasing order. -/
abbrev Cache := List (Path × BmpId)

/-- The heap of live bitmap objects: identifier to current pixel contents. -/
abbrev Heap := List (BmpId × Pixels)

/-- The file system contents relevant to the core: path to encoded contents. -/
abbrev Disk := List (Path × Pixels)

/-- `g_cache.find(p)` / `g_cache.count(p)`. -/
def cacheFind : Cache → Path → Option BmpId
  | [], _ => none
  | (k, v) :: rest, p => if k = p then some v else cacheFind rest p

/-- `g_cache[p] = v`: ordered-map insert (overwrites an existing key,
inserts at the sorted position otherwise). -/
def cacheInsert : Cache → Path → BmpId → Cache
  | [], p, v => [(p, v)]
  | (k, w) :: rest, p, v =>
    if p < k then (p, v) :: (k, w) :: rest
    else if p = k then (p, v) :: rest
    else (k, w) :: cacheInsert rest p v

/-- `g_cache.erase(p)`. -/
def cacheErase : Cache → Path → Cache
  | [], _ => []
  | (k, w) :: rest, p => if k = p then rest else (k, w) :: cacheErase rest p

/-- Dereference a shared bitmap handle (default 0 for a dangling id,
which never occurs in the states reached by the operations below). -/
def heapGet : Heap → BmpId → Pixels
  | [], _ => 0
  | (j, w) :: rest, i => if j = i then w else heapGet rest i

/-- In-place mutation of the shared bitmap object `i` (e.g. `RotateFlip`),
or allocation when `i` is fresh. -/
def heapSet : Heap → BmpId → Pixels → Heap
  | [], i, v => [(i, v)]
  | (j, w) :: rest, i, v => if j = i then (i, v) :: rest else (j, w) :: heapSet rest i v

/-- Contents of the file at `p`, if it exists. -/
def diskGet : Disk → Path → Option Pixels
  | [], _ => none
  | (k, w) :: rest, p => if k = p then some w else diskGet rest p

/-- Write (create or overwrite) the file at `p`. -/
def diskSet : Disk → Path → Pixels → Disk
  | [], p, v => [(p, v)]
  | (k, w) :: rest, p, v => if k = p then (p, v) :: rest else (k, w) :: diskSet rest p v

/-- Delete the file at `p`. -/
def diskErase : Disk → Path → Disk
  | [], _ => []
  | (k, w) :: rest, p => if k = p then rest else (k, w) :: diskErase rest p

/-- The temporary name `p + L".tmp"` used by `Rotate90AndResave`
(injective, never equal to `p`). -/
def tmpPath (p : Path) : Path := 3 * p + 1

/-- The temporary name `p + L".tmp_exif"` used by `SetExifOrientation`
(injective, never equal to `p` nor to `tmpPath p`). -/
def tmpExifPath (p : Path) : Path := 3 * p + 2

/-- C++ truncated remainder `%` on `int`. -/
def cppMod (a b : Int) : Int := a.tmod b

/-- The wraparound normalisation `(i % n + n) % n` from `PreloadAround`'s
`loadOne` lambda and from `GetBitmapAt` (`src/app.cpp:156` and `:250`). -/
def normIdx (i n : Int) : Int := cppMod (cppMod i n + n) n

/-- Truncated remainder of a negative integer is the negation of the
truncated remainder of its absolute value (directly from the definition). -/
theorem tmod_negSucc (m : Nat) (n : Int) :
    (Int.negSucc m).tmod n = -(((m + 1 : Nat) : Int).tmod n) := by
  cases n with
  | ofNat k => rfl
  | negSucc k => rfl

/-- For a positive length, `(i % n + n) % n` with C++ truncated `%` equals
the mathematical (euclidean) remainder. -/
theorem normIdx_eq_emod (i n : Int) (h : 0 < n) : normIdx i n = i % n := by
  unfold normIdx cppMod
  cases i with
  | ofNat m =>
    have hm : (0 : Int) ≤ Int.ofNat m := Int.ofNat_nonneg m
    have einner : (Int.ofNat m).tmod n = Int.ofNat m % n := Int.tmod_eq_emod hm h.le
    have h0 : 0 ≤ Int.ofNat m % n := Int.emod_nonneg _ (by omega)
    have eouter : (Int.ofNat m % n + n).tmod n = (Int.ofNat m % n + n) % n :=
      Int.tmod_eq_emod (by omega) h.le
    rw [einner, eouter, Int.add_emod_self, Int.emod_emod_of_dvd _ (dvd_refl n)]
  | negSucc m =>
    have hm : (0 : Int) ≤ ((m + 1 : Nat) : Int) := Int.natCast_nonneg (m + 1)
    have einner : ((m + 1 : Nat) : Int).tmod n = ((m + 1 : Nat) : Int) % n :=
      Int.tmod_eq_emod hm h.le
    have h0 : 0 ≤ ((m + 1 : Nat) : Int) % n := Int.emod_nonneg _ (by omega)
    have h1 : ((m + 1 : Nat) : Int) % n < n := Int.emod_lt_of_pos _ h
    have eouter : (-(((m + 1 : Nat) : Int) % n) + n).tmod n
        = (-(((m + 1 : Nat) : Int) % n) + n) % n := Int.tmod_eq_emod (by omega) h.le
    have hneg : Int.negSucc m = -((m + 1 : Nat) : Int) := rfl
    rw [tmod_negSucc m n, einner, eouter, hneg]
    have l1 : (-(((m + 1 : Nat) : Int) % n) + n) % n
        = (0 - ((m + 1 : Nat) : Int) % n) % n := by
      have harr : -(((m + 1 : Nat) : Int) % n) + n = n - ((m + 1 : Nat) : Int) % n := by
        ring
      rw [harr, Int.sub_emod, Int.emod_self, Int.emod_emod_of_dvd _ (dvd_refl n)]
    have r1 : (-((m + 1 : Nat) : Int)) % n = (0 - ((m + 1 : Nat) : Int) % n) % n := by
      rw [Int.neg_emod, Int.sub_emod, Int.emod_self]
    rw [l1, r1]

/-- The normalised index is in `[0, n)` for positive `n`. -/
theorem normIdx_bounds (i n : Int) (h : 0 < n) :
    0 ≤ normIdx i n ∧ normIdx i n < n := by
  rw [normIdx_eq_emod i n h]
  exact ⟨Int.emod_nonneg i (by omega), Int.emod_lt_of_pos i h⟩

/-- The mutable state shared by the cache operations: `g_cache`, together
with the heap of live bitmap objects and a fresh-identifier counter. -/
structure CState where
  cache : Cache
  heap : Heap
  nextId : BmpId
deriving DecidableEq, Repr

/-- The initial state: empty cache, no live bitmaps. -/
def initCState : CState := ⟨[], [], 0⟩

/-- The `loadOne` lambda inside `PreloadAround` (`src/app.cpp:154-165`):
normalise the index, skip if the path is already cached, otherwise decode
and insert on success (failed decodes are not inserted).  Also yields the
normalised index that was requested, for reasoning about the prefetch
window. -/
def loadOne (decode : Path → Option Pixels) (files : List Path) (n : Int)
    (s : CState) (i : Int) : CState × Int :=
  let j := normIdx i n
  let p := files.getD j.toNat 0
  if (cacheFind s.cache p).isSome then (s, j)
  else
    match decode p with
    | some px =>
      (⟨cacheInsert s.cache p s.nextId, heapSet s.heap s.nextId px, s.nextId + 1⟩, j)
    | none => (s, j)

/-- The trim loop at the end of `PreloadAround`, with explicit fuel so that
it is structurally recursive (the loop removes one entry per iteration, so
`c.length` iterations always suffice). -/
def trimCacheAux : Nat → Cache → Cache
  | 0, c => c
  | fuel + 1, c => if 12 < c.length then trimCacheAux fuel c.tail else c

/-- The trim loop at the end of `PreloadAround` (`src/app.cpp:169-173`):
`while (g_cache.size() > 12) g_cache.erase(g_cache.begin());`.
`begin()` of the sorted map is the head of the sorted list. -/
def trimCache (c : Cache) : Cache := trimCacheAux c.length c

/-- `PreloadAround` (`src/app.cpp:149-174`): early return on an empty file
list, otherwise load the window `idx-2 .. idx+2` and trim the cache.
The second component collects the normalised indices requested. -/
def preloadAround (decode : Path → Option Pixels) (files : List Path)
    (idx : Int) (s : CState) : CState × List Int :=
  if files = [] then (s, [])
  else
    let n : Int := (files.length : Int)
    let r := ([-2, -1, 0, 1, 2] : List Int).foldl
      (fun acc d =>
        let one := loadOne decode files n acc.1 (idx + d)
        (one.1, acc.2 ++ [one.2]))
      (s, [])
    (⟨trimCache r.1.cache, r.1.heap, r.1.nextId⟩, r.2)

/-- `GetBitmapAt` (`src/app.cpp:242-273`): empty list returns nothing;
otherwise normalise the index, return the cached handle on a hit, else
decode synchronously, inserting (and returning) only on success. -/
def getBitmapAt (decode : Path → Option Pixels) (files : List Path)
    (idx : Int) (s : CState) : Option BmpId × CState :=
  if files = [] then (none, s)
  else
    let n : Int := (files.length : Int)
    let j := normIdx idx n
    let p := files.getD j.toNat 0
    match cacheFind s.cache p with
    | some id => (some id, s)
    | none =>
      match decode p with
      | some px =>
        (some s.nextId, ⟨cacheInsert s.cache p s.nextId, heapSet s.heap s.nextId px, s.nextId + 1⟩)
      | none => (none, s)

/-- `ShowImageAtIndex` (`src/app.cpp:792-802`) as a function on the stored
index: a no-op on an empty file list, otherwise clamp a negative argument
to the last index and an overflowing argument to 0, then store it. -/
def showImageAtIndex (files : List Path) (gIndex : Int) (index : Int) : Int :=
  if files = [] then gIndex
  else
    let i1 := if index < 0 then (files.length : Int) - 1 else index
    let i2 := if (files.length : Int) ≤ i1 then 0 else i1
    i2

/-- `PrevImage` (`src/app.cpp:804`). -/
def prevImage (files : List Path) (gIndex : Int) : Int :=
  showImageAtIndex files gIndex (gIndex - 1)

/-- `NextImage` (`src/app.cpp:805`). -/
def nextImage (files : List Path) (gIndex : Int) : Int :=
  showImageAtIndex files gIndex (gIndex + 1)

/-- The index adjustment at the end of `EnumFiles` (`src/app.cpp:143-147`):
after the file list is replaced, an empty list pins the index at 0, and an
index at or beyond the new length is reset to 0. -/
def enumFilesIndex (newFiles : List Path) (gIndex : Int) : Int :=
  if newFiles = [] then 0
  else if (newFiles.length : Int) ≤ gIndex then 0
  else gIndex

/-- The navigation-relevant state: the current file list and index. -/
structure NavState where
  files : List Path
  index : Int
deriving DecidableEq, Repr

/-- The operations that replace the file list or navigate. -/
inductive NavOp where
  | replace (newFiles : List Path)
  | showAt (target : Int)
deriving DecidableEq, Repr

/-- One navigation-relevant step of the program. -/
def navStep (s : NavState) : NavOp → NavState
  | .replace newFiles => ⟨newFiles, enumFilesIndex newFiles s.index⟩
  | .showAt target => ⟨s.files, showImageAtIndex s.files s.index target⟩

/-- A sequence of navigation-relevant steps. -/
def navRun (s : NavState) (ops : List NavOp) : NavState :=
  ops.foldl navStep s

/-- The navigation invariant from the spec: a non-empty file list keeps the
index inside `[0, len)`; an empty file list pins it at 0. -/
def navInv (s : NavState) : Prop :=
  (s.files ≠ [] → 0 ≤ s.index ∧ s.index < (s.files.length : Int)) ∧
  (s.files = [] → s.index = 0)

instance (s : NavState) : Decidable (navInv s) := by
  unfold navInv
  infer_instance

/-- `SetExifOrientation` (`src/app.cpp:213-240`): load the image at `file`,
and only when it has an orientation property of short type, modify it, save
to `file + ".tmp_exif"` and rename over `file` on save success.  The load
outcome, the two property queries and the save outcome are oracles;
`withOrientation` abstracts re-encoding the contents with the new
orientation value. -/
def setExifOrientation (loadOk hasProp propShort saveOk : Bool)
    (withOrientation : Pixels → Int → Pixels) (disk : Disk) (file : Path)
    (val : Int) : Disk :=
  if !loadOk then disk
  else if !hasProp then disk
  else if !propShort then disk
  else
    let content := (diskGet disk file).getD 0
    let newContent := withOrientation content val
    if saveOk then
      diskErase (diskSet (diskSet disk (tmpExifPath file) newContent) file newContent)
        (tmpExifPath file)
    else disk

/-- Oracles for the external save/encode and EXIF-property operations used
by `Rotate90AndResave` and the `SetExifOrientation` call inside it. -/
structure RotOracles where
  saveOk : Bool
  exifLoadOk : Bool
  exifHasProp : Bool
  exifPropShort : Bool
  exifSaveOk : Bool
deriving DecidableEq, Repr

/-- `Rotate90AndResave` (`src/app.cpp:698-732`): no-op on an empty file
list; otherwise fetch the shared bitmap handle for the current index via
`GetBitmapAt` (no-op when that fails), mutate the shared bitmap in place
(`RotateFlip`), save the rotated pixels to `p + ".tmp"`, and only on save
success rename over `p`, normalise the EXIF orientation to 1 and erase the
cache entry for `p`.  `rot` abstracts the pixel rotation performed by
`RotateFlip`. -/
def rotate90AndResave (decode : Path → Option Pixels) (rot : Pixels → Pixels)
    (withOrientation : Pixels → Int → Pixels) (oracles : RotOracles)
    (files : List Path) (gIndex : Int) (s : CState) (disk : Disk) :
    CState × Disk :=
  if files = [] then (s, disk)
  else
    match getBitmapAt decode files gIndex s with
    | (none, s1) => (s1, disk)
    | (some id, s1) =>
      let s2 : CState := ⟨s1.cache, heapSet s1.heap id (rot (heapGet s1.heap id)), s1.nextId⟩
      let p := files.getD gIndex.toNat 0
      if oracles.saveOk then
        let disk1 := diskSet disk (tmpPath p) (heapGet s2.heap id)
        let disk2 := diskErase (diskSet disk1 p (heapGet s2.heap id)) (tmpPath p)
        let disk3 := setExifOrientation oracles.exifLoadOk oracles.exifHasProp
          oracles.exifPropShort oracles.exifSaveOk withOrientation disk2 p 1
        (⟨cacheErase s2.cache p, s2.heap, s2.nextId⟩, disk3)
      else (s2, disk)

/-- A GDI+ affine matrix (`Gdiplus::Matrix`), row-vector convention:
a point `v` is mapped to `v ⬝ [[m11, m12], [m21, m22]] + (dx, dy)`. -/
structure Mat where
  m11 : ℚ
  m12 : ℚ
  m21 : ℚ
  m22 : ℚ
  dx : ℚ
  dy : ℚ
deriving DecidableEq, Repr

/-- The identity matrix a freshly constructed `Gdiplus::Matrix` holds. -/
def Mat.identity : Mat := ⟨1, 0, 0, 1, 0, 0⟩

/-- Product of two affine maps in row-vector convention:
`v ⬝ (a.mul b) = (v ⬝ a) ⬝ b` (apply `a` first, then `b`). -/
def Mat.mul (a b : Mat) : Mat :=
  ⟨a.m11 * b.m11 + a.m12 * b.m21, a.m11 * b.m12 + a.m12 * b.m22,
   a.m21 * b.m11 + a.m22 * b.m21, a.m21 * b.m12 + a.m22 * b.m22,
   a.dx * b.m11 + a.dy * b.m21 + b.dx, a.dx * b.m12 + a.dy * b.m22 + b.dy⟩

/-- `Matrix::Scale(sx, sy)` with the default prepend order: the scaling is
applied before the existing transform. -/
def Mat.scale (m : Mat) (sx sy : ℚ) : Mat :=
  Mat.mul ⟨sx, 0, 0, sy, 0, 0⟩ m

/-- `Matrix::Translate(tx, ty)` with the default prepend order. -/
def Mat.translate (m : Mat) (tx ty : ℚ) : Mat :=
  Mat.mul ⟨1, 0, 0, 1, tx, ty⟩ m

/-- `Matrix::RotateAt(angle, center)` with the default prepend order, for a
right angle given by its exact cosine and sine: translate the center to the
origin, rotate, translate back, all prepended to the existing transform.
The source only calls this with 90, 180 and 270 degrees, whose cosine and
sine are exactly 0, 1 or -1. -/
def Mat.rotateAt (m : Mat) (c s cx cy : ℚ) : Mat :=
  Mat.mul (Mat.mul (Mat.mul ⟨1, 0, 0, 1, -cx, -cy⟩ ⟨c, s, -s, c, 0, 0⟩) ⟨1, 0, 0, 1, cx, cy⟩) m

/-- A GDI+ integer rectangle (`Gdiplus::Rect`). -/
structure RectI where
  x : Int
  y : Int
  w : Int
  h : Int
deriving DecidableEq, Repr

/-- The C cast `(int)` applied to a `double`: truncation toward zero. -/
def cint (q : ℚ) : Int := if 0 ≤ q then ⌊q⌋ else -⌊-q⌋

/-- `CalcRectAndMatrix` (`src/app.cpp:301-346`).  `gZoom` is the value of
`g_zoom` (0 = actual size, 1 = fit, 2 = shrink-to-fit); `w`, `h` are the
source pixel dimensions (`UINT`); `orient` the EXIF orientation code; the
viewport is the `RECT rc` given by its four edges.  Double arithmetic is
modelled exactly over `ℚ` and `(int)` casts by `cint`.  Returns the
destination rectangle and the orientation matrix. -/
def calcRectAndMatrix (gZoom : Nat) (w h : Nat) (orient : Int)
    (rcL rcT rcR rcB : Int) : RectI × Mat :=
  let imgAspect : ℚ := (w : ℚ) / (h : ℚ)
  let ww : ℚ := ((rcR - rcL : Int) : ℚ)
  let wh : ℚ := ((rcB - rcT : Int) : ℚ)
  let rect0 : RectI := ⟨rcL, rcT, (w : Int), (h : Int)⟩
  let rect :=
    if gZoom = 0 ∨ (gZoom = 2 ∧ ((w : ℚ) ≤ ww ∧ (h : ℚ) ≤ wh)) then
      { rect0 with
        x := rect0.x + cint ((ww - (rect0.w : ℚ)) / 2),
        y := rect0.y + cint ((wh - (rect0.h : ℚ)) / 2) }
    else
      let wAR : ℚ := ww / wh
      if imgAspect > wAR then
        let newW : Int := cint ww
        let newH : Int := cint (wh / imgAspect)
        { rect0 with
          y := rect0.y + cint ((wh - (newH : ℚ)) / 2), w := newW, h := newH }
      else
        let newH : Int := cint wh
        let newW : Int := cint (wh * imgAspect)
        { rect0 with
          x := rect0.x + cint ((ww - (newW : ℚ)) / 2), w := newW, h := newH }
  let cx : ℚ := (rect.x : ℚ) + (rect.w : ℚ) / 2
  let cy : ℚ := (rect.y : ℚ) + (rect.h : ℚ) / 2
  let mx := Mat.identity
  let mx :=
    if orient = 2 then (mx.scale (-1) 1).translate (rect.w : ℚ) 0
    else if orient = 3 then mx.rotateAt (-1) 0 cx cy
    else if orient = 4 then (mx.scale 1 (-1)).translate 0 (rect.h : ℚ)
    else if orient = 5 then (mx.rotateAt 0 1 cx cy).scale 1 (-1)
    else if orient = 6 then mx.rotateAt 0 1 cx cy
    else if orient = 7 then (mx.rotateAt 0 (-1) cx cy).scale 1 (-1)
    else if orient = 8 then mx.rotateAt 0 (-1) cx cy
    else mx
  (rect, mx)


/-! ### Helper lemmas -/

theorem loadOne_snd (decode : Path → Option Pixels) (files : List Path) (n : Int)
    (s : CState) (i : Int) : (loadOne decode files n s i).2 = normIdx i n := by
  simp only [loadOne]
  split
  · rfl
  · split <;> rfl

theorem preload_fold_snd (decode : Path → Option Pixels) (files : List Path) (n : Int)
    (idx : Int) (ds : List Int) (a : CState × List Int) :
    (ds.foldl (fun acc d =>
        let one := loadOne decode files n acc.1 (idx + d)
        (one.1, acc.2 ++ [one.2])) a).2
      = a.2 ++ ds.map (fun d => normIdx (idx + d) n) := by
  induction ds generalizing a with
  | nil => simp
  | cons d ds ih =>
    rw [List.foldl_cons, ih]
    show (a.2 ++ [(loadOne decode files n a.1 (idx + d)).2]) ++ _ = _
    rw [loadOne_snd, List.append_assoc]
    rfl

theorem mem_cacheInsert (c : Cache) (p : Path) (v : BmpId) (e : Path × BmpId)
    (h : e ∈ cacheInsert c p v) : e = (p, v) ∨ e ∈ c := by
  induction c with
  | nil =>
    unfold cacheInsert at h
    exact Or.inl (List.mem_singleton.mp h)
  | cons kv rest ih =>
    obtain ⟨k, w⟩ := kv
    by_cases h1 : p < k
    · simp only [cacheInsert, if_pos h1] at h
      rcases List.mem_cons.mp h with h2 | h2
      · exact Or.inl h2
      · exact Or.inr h2
    · by_cases h2 : p = k
      · simp only [cacheInsert, if_neg h1, if_pos h2] at h
        rcases List.mem_cons.mp h with h3 | h3
        · exact Or.inl h3
        · exact Or.inr (List.mem_cons_of_mem _ h3)
      · simp only [cacheInsert, if_neg h1, if_neg h2] at h
        rcases List.mem_cons.mp h with h3 | h3
        · exact Or.inr (by simp [h3])
        · rcases ih h3 with h4 | h4
          · exact Or.inl h4
          · exact Or.inr (List.mem_cons_of_mem _ h4)

theorem cacheFind_insert_self (c : Cache) (p : Path) (v : BmpId) :
    cacheFind (cacheInsert c p v) p = some v := by
  induction c with
  | nil => simp [cacheInsert, cacheFind]
  | cons kv rest ih =>
    obtain ⟨k, w⟩ := kv
    by_cases h1 : p < k
    · simp only [cacheInsert, if_pos h1]
      simp [cacheFind]
    · by_cases h2 : p = k
      · simp only [cacheInsert, if_neg h1, if_pos h2]
        simp [cacheFind]
      · simp only [cacheInsert, if_neg h1, if_neg h2]
        have h3 : k ≠ p := fun hk => h2 hk.symm
        simp [cacheFind, h3, ih]

theorem cacheInsert_pairwise (c : Cache) (p : Path) (v : BmpId)
    (h : List.Pairwise (fun a b : Path × BmpId => a.1 < b.1) c) :
    List.Pairwise (fun a b : Path × BmpId => a.1 < b.1) (cacheInsert c p v) := by
  induction c with
  | nil => simp [cacheInsert]
  | cons kv rest ih =>
    obtain ⟨k, w⟩ := kv
    rcases List.pairwise_cons.mp h with ⟨hhead, htail⟩
    by_cases h1 : p < k
    · simp only [cacheInsert, if_pos h1]
      refine List.pairwise_cons.mpr ⟨?_, h⟩
      intro e he
      rcases List.mem_cons.mp he with he | he
      · rw [he]
        exact h1
      · have h5 : k < e.1 := hhead e he
        exact lt_trans h1 h5
    · by_cases h2 : p = k
      · simp only [cacheInsert, if_neg h1, if_pos h2]
        refine List.pairwise_cons.mpr ⟨?_, htail⟩
        intro e he
        have h5 : k < e.1 := hhead e he
        exact lt_of_le_of_lt h2.le h5
      · simp only [cacheInsert, if_neg h1, if_neg h2]
        refine List.pairwise_cons.mpr ⟨?_, ih htail⟩
        intro e he
        rcases mem_cacheInsert rest p v e he with he2 | he2
        · rw [he2]
          exact lt_of_le_of_ne (Nat.le_of_not_lt h1) (fun h6 => h2 h6.symm)
        · exact hhead e he2

theorem cacheFind_none_of_all_ne (c : Cache) (p : Path)
    (h : ∀ e ∈ c, e.1 ≠ p) : cacheFind c p = none := by
  induction c with
  | nil => rfl
  | cons kv rest ih =>
    have h1 : kv.1 ≠ p := h kv (List.mem_cons_self kv rest)
    obtain ⟨k, w⟩ := kv
    simp only [cacheFind, if_neg h1]
    exact ih (fun e he => h e (List.mem_cons_of_mem _ he))

theorem cacheFind_erase_self (c : Cache) (p : Path)
    (h : List.Pairwise (fun a b : Path × BmpId => a.1 < b.1) c) :
    cacheFind (cacheErase c p) p = none := by
  induction c with
  | nil => rfl
  | cons kv rest ih =>
    obtain ⟨k, w⟩ := kv
    rcases List.pairwise_cons.mp h with ⟨hhead, htail⟩
    by_cases h1 : k = p
    · simp only [cacheErase, if_pos h1]
      refine cacheFind_none_of_all_ne rest p (fun e he => ?_)
      have h5 : k < e.1 := hhead e he
      have h6 : p < e.1 := h1 ▸ h5
      exact h6.ne'
    · simp only [cacheErase, if_neg h1, cacheFind]
      exact ih htail

theorem trimCacheAux_drop (fuel : Nat) : ∀ c : Cache, c.length ≤ 12 + fuel →
    trimCacheAux fuel c = c.drop (c.length - 12) := by
  induction fuel with
  | zero =>
    intro c hc
    have h0 : c.length - 12 = 0 := by omega
    simp [trimCacheAux, h0]
  | succ fuel ih =>
    intro c hc
    unfold trimCacheAux
    split
    · rename_i hlen
      have htail : c.tail.length ≤ 12 + fuel := by
        rw [List.length_tail]
        omega
      rw [ih c.tail htail, List.length_tail, ← List.drop_one, List.drop_drop]
      congr 1
      omega
    · rename_i hlen
      have h0 : c.length - 12 = 0 := by omega
      simp [h0]

theorem trimCache_drop (c : Cache) : trimCache c = c.drop (c.length - 12) :=
  trimCacheAux_drop c.length c (by omega)

theorem trimCache_length_le (c : Cache) : (trimCache c).length ≤ 12 := by
  rw [trimCache_drop, List.length_drop]
  omega

theorem mem_trimCache (c : Cache) (e : Path × BmpId) (h : e ∈ trimCache c) : e ∈ c := by
  rw [trimCache_drop] at h
  exact List.mem_of_mem_drop h

/-- The invariant of claim C2: every key present in the cache has a
successful decode. -/
def goodKeys (decode : Path → Option Pixels) (c : Cache) : Prop :=
  ∀ e ∈ c, (decode e.1).isSome

/-- The operations through which the render path and the prefetch loop
touch the cache. -/
inductive CacheOp where
  | get (files : List Path) (idx : Int)
  | preload (files : List Path) (idx : Int)
deriving DecidableEq, Repr

/-- One cache-touching step of the program. -/
def runCacheOp (decode : Path → Option Pixels) (s : CState) : CacheOp → CState
  | .get files idx => (getBitmapAt decode files idx s).2
  | .preload files idx => (preloadAround decode files idx s).1

/-- A sequence of cache-touching steps. -/
def runCacheOps (decode : Path → Option Pixels) (ops : List CacheOp) (s : CState) : CState :=
  ops.foldl (runCacheOp decode) s

theorem goodKeys_insert (decode : Path → Option Pixels) (c : Cache) (p : Path) (v : BmpId)
    (h : goodKeys decode c) (hp : (decode p).isSome) :
    goodKeys decode (cacheInsert c p v) := by
  intro e he
  rcases mem_cacheInsert c p v e he with he2 | he2
  · rw [he2]
    exact hp
  · exact h e he2

theorem goodKeys_loadOne (decode : Path → Option Pixels) (files : List Path) (n : Int)
    (s : CState) (i : Int) (h : goodKeys decode s.cache) :
    goodKeys decode ((loadOne decode files n s i).1).cache := by
  simp only [loadOne]
  split
  · exact h
  · split
    · rename_i px hpx
      exact goodKeys_insert decode s.cache _ s.nextId h (by rw [hpx]; rfl)
    · exact h

theorem goodKeys_preload_fold (decode : Path → Option Pixels) (files : List Path) (n : Int)
    (idx : Int) (ds : List Int) : ∀ a : CState × List Int, goodKeys decode a.1.cache →
    goodKeys decode ((ds.foldl (fun acc d =>
        let one := loadOne decode files n acc.1 (idx + d)
        (one.1, acc.2 ++ [one.2])) a).1).cache := by
  induction ds with
  | nil => intro a h; exact h
  | cons d ds ih =>
    intro a h
    rw [List.foldl_cons]
    exact ih _ (goodKeys_loadOne decode files n a.1 (idx + d) h)

theorem goodKeys_trim (decode : Path → Option Pixels) (c : Cache)
    (h : goodKeys decode c) : goodKeys decode (trimCache c) :=
  fun e he => h e (mem_trimCache c e he)

theorem goodKeys_preloadAround (decode : Path → Option Pixels) (files : List Path)
    (idx : Int) (s : CState) (h : goodKeys decode s.cache) :
    goodKeys decode ((preloadAround decode files idx s).1).cache := by
  unfold preloadAround
  split
  · exact h
  · exact goodKeys_trim decode _ (goodKeys_preload_fold decode files _ idx _ (s, []) h)

theorem goodKeys_getBitmapAt (decode : Path → Option Pixels) (files : List Path)
    (idx : Int) (s : CState) (h : goodKeys decode s.cache) :
    goodKeys decode ((getBitmapAt decode files idx s).2).cache := by
  simp only [getBitmapAt]
  split
  · exact h
  · split
    · exact h
    · split
      · rename_i px hpx
        exact goodKeys_insert decode s.cache _ s.nextId h (by rw [hpx]; rfl)
      · exact h

theorem goodKeys_runCacheOps (decode : Path → Option Pixels) (ops : List CacheOp) :
    ∀ s : CState, goodKeys decode s.cache →
    goodKeys decode (runCacheOps decode ops s).cache := by
  induction ops with
  | nil => intro s h; exact h
  | cons op ops ih =>
    intro s h
    rw [runCacheOps, List.foldl_cons]
    refine ih _ ?_
    cases op with
    | get files idx => exact goodKeys_getBitmapAt decode files idx s h
    | preload files idx => exact goodKeys_preloadAround decode files idx s h

/-- The path `GetBitmapAt` reads after normalising its index argument
(the local `p` at `src/app.cpp:251`). -/
def getPath (files : List Path) (idx : Int) : Path :=
  files.getD (normIdx idx (files.length : Int)).toNat 0

/-- C10: `GetBitmapAt` is total over its integer index argument: for an
empty file list it returns nothing and leaves the state unchanged, and for
a non-empty list the normalisation `(idx % n + n) % n` lands in `[0, n)`,
so the subsequent list access is in range. -/
theorem c10_getBitmapAt_total (decode : Path → Option Pixels) (files : List Path)
    (idx : Int) (s : CState) :
    getBitmapAt decode [] idx s = (none, s) ∧
    (files ≠ [] →
      0 ≤ normIdx idx (files.length : Int) ∧
      normIdx idx (files.length : Int) < (files.length : Int)) := by
  constructor
  · rfl
  · intro hne
    have hpos : (0 : Int) < (files.length : Int) := by
      have := List.length_pos.mpr hne
      omega
    exact normIdx_bounds idx _ hpos

/-- Witness for C10 at a concrete input. -/
theorem c10_getBitmapAt_total_witness :
    ([5, 7] : List Path) ≠ [] ∧
    (getBitmapAt (fun _ => none) [] (-3) initCState = (none, initCState) ∧
      (0 ≤ normIdx (-3) ((([5, 7] : List Path).length : Int)) ∧
        normIdx (-3) ((([5, 7] : List Path).length : Int)) < (([5, 7] : List Path).length : Int))) :=
  ⟨by decide,
   ⟨(c10_getBitmapAt_total (fun _ => none) [5, 7] (-3) initCState).1,
    (c10_getBitmapAt_total (fun _ => none) [5, 7] (-3) initCState).2 (by decide)⟩⟩

/-- C3: one prefetch cycle on a non-empty file list of length `n` requests
exactly the five wraparound-normalised indices `(idx + d) mod n` for
`d ∈ {-2, -1, 0, 1, 2}` (repeats allowed when `n < 5`); on an empty file
list it makes no cache requests and leaves the state unchanged. -/
theorem c3_preload_window (decode : Path → Option Pixels) (files : List Path)
    (idx : Int) (s : CState) :
    preloadAround decode [] idx s = (s, []) ∧
    (files ≠ [] →
      (preloadAround decode files idx s).2
        = ([-2, -1, 0, 1, 2] : List Int).map (fun d => (idx + d) % (files.length : Int))) := by
  constructor
  · rfl
  · intro hne
    have hpos : (0 : Int) < (files.length : Int) := by
      have := List.length_pos.mpr hne
      omega
    have hfold := preload_fold_snd decode files (files.length : Int) idx
      ([-2, -1, 0, 1, 2] : List Int) (s, [])
    simp only [preloadAround, if_neg hne]
    rw [hfold]
    simp only [List.nil_append, List.map_cons, List.map_nil,
      normIdx_eq_emod _ _ hpos]

/-- Witness for C3: the spec scenario `idx = 0` in a 3-element set yields
the request list `[1, 2, 0, 1, 2]`. -/
theorem c3_preload_window_witness :
    ([4, 5, 6] : List Path) ≠ [] ∧
    (preloadAround (fun _ => none) [] 0 initCState = (initCState, []) ∧
      (preloadAround (fun _ => none) [4, 5, 6] 0 initCState).2 = [1, 2, 0, 1, 2]) := by
  refine ⟨by decide, (c3_preload_window (fun _ => none) [4, 5, 6] 0 initCState).1, ?_⟩
  rw [(c3_preload_window (fun _ => none) [4, 5, 6] 0 initCState).2 (by decide)]
  decide

/-- C2: the `GetBitmapAt` contract.  On a non-empty file list: a cache hit
returns the cached handle and changes nothing; a miss with a successful
decode inserts the freshly decoded bitmap and returns it; a miss with a
failed decode returns nothing (not an error) and inserts nothing.  And
after any sequence of get/prefetch operations starting from a cache whose
keys all decode successfully, the cache never contains a key whose decode
failed. -/
theorem c2_cache_get_contract (decode : Path → Option Pixels) (files : List Path)
    (idx : Int) (s : CState) (hne : files ≠ []) :
    (∀ id, cacheFind s.cache (getPath files idx) = some id →
      getBitmapAt decode files idx s = (some id, s)) ∧
    (∀ px, cacheFind s.cache (getPath files idx) = none →
      decode (getPath files idx) = some px →
      getBitmapAt decode files idx s = (some s.nextId,
        ⟨cacheInsert s.cache (getPath files idx) s.nextId,
         heapSet s.heap s.nextId px, s.nextId + 1⟩)) ∧
    (cacheFind s.cache (getPath files idx) = none →
      decode (getPath files idx) = none →
      getBitmapAt decode files idx s = (none, s)) ∧
    (goodKeys decode s.cache →
      ∀ ops : List CacheOp, goodKeys decode (runCacheOps decode ops s).cache) := by
  refine ⟨?_, ?_, ?_, ?_⟩
  · intro id hfind
    simp only [getBitmapAt, if_neg hne]
    rw [show files.getD (normIdx idx (files.length : Int)).toNat 0 = getPath files idx from rfl,
      hfind]
  · intro px hfind hdec
    simp only [getBitmapAt, if_neg hne]
    rw [show files.getD (normIdx idx (files.length : Int)).toNat 0 = getPath files idx from rfl,
      hfind, hdec]
  · intro hfind hdec
    simp only [getBitmapAt, if_neg hne]
    rw [show files.getD (normIdx idx (files.length : Int)).toNat 0 = getPath files idx from rfl,
      hfind, hdec]
  · intro hgood ops
    exact goodKeys_runCacheOps decode ops s hgood

/-- A small concrete decode oracle for the witnesses below: path 7 fails to
decode, every other path decodes. -/
def dec0 : Path → Option Pixels := fun p => if p = 7 then none else some (p * 10)

/-- Witness for C2 at concrete inputs: a hit, a miss with successful decode,
a miss with failed decode, and the failed-key invariant from a fresh cache. -/
theorem c2_cache_get_contract_witness :
    ([7, 8] : List Path) ≠ [] ∧
    getBitmapAt dec0 [7, 8] 1 ⟨[(8, 3)], [(3, 80)], 4⟩ = (some 3, ⟨[(8, 3)], [(3, 80)], 4⟩) ∧
    getBitmapAt dec0 [7, 8] 1 initCState = (some 0, ⟨[(8, 0)], [(0, 80)], 1⟩) ∧
    getBitmapAt dec0 [7, 8] 0 initCState = (none, initCState) ∧
    (∀ ops : List CacheOp, goodKeys dec0 (runCacheOps dec0 ops initCState).cache) := by
  refine ⟨by decide, ?_, ?_, ?_, ?_⟩
  · exact (c2_cache_get_contract dec0 [7, 8] 1 ⟨[(8, 3)], [(3, 80)], 4⟩ (by decide)).1
      3 (by decide)
  · exact (c2_cache_get_contract dec0 [7, 8] 1 initCState (by decide)).2.1
      80 (by decide) (by decide)
  · exact (c2_cache_get_contract dec0 [7, 8] 0 initCState (by decide)).2.2.1
      (by decide) (by decide)
  · exact (c2_cache_get_contract dec0 [7, 8] 0 initCState (by decide)).2.2.2
      (fun e he => absurd he (List.not_mem_nil e))

/-! ### Navigation wraparound (C4) -/

theorem nextImage_step (files : List Path) (i : Int) (hne : files ≠ [])
    (h0 : 0 ≤ i) (h1 : i < (files.length : Int)) :
    nextImage files i = (i + 1) % (files.length : Int) := by
  simp only [nextImage, showImageAtIndex, if_neg hne]
  rw [if_neg (show ¬ (i + 1 < 0) by omega)]
  by_cases hc : (files.length : Int) ≤ i + 1
  · rw [if_pos hc]
    have heq : i + 1 = (files.length : Int) := by omega
    rw [heq, Int.emod_self]
  · rw [if_neg hc, Int.emod_eq_of_lt (by omega) (by omega)]

theorem prevImage_step (files : List Path) (i : Int) (hne : files ≠ [])
    (h0 : 0 ≤ i) (h1 : i < (files.length : Int)) :
    prevImage files i = (i - 1) % (files.length : Int) := by
  simp only [prevImage, showImageAtIndex, if_neg hne]
  by_cases hc : i - 1 < 0
  · rw [if_pos hc, if_neg (show ¬ ((files.length : Int) ≤ (files.length : Int) - 1) by omega)]
    have heq : i - 1 = ((files.length : Int) - 1) + (files.length : Int) * (-1) := by omega
    rw [heq, Int.add_mul_emod_self_left, Int.emod_eq_of_lt (by omega) (by omega)]
  · rw [if_neg hc, if_neg (show ¬ ((files.length : Int) ≤ i - 1) by omega),
      Int.emod_eq_of_lt (by omega) (by omega)]

theorem nextImage_iterate (files : List Path) (hne : files ≠ []) (k : Nat) :
    ∀ i : Int, 0 ≤ i → i < (files.length : Int) →
    (fun j => nextImage files j)^[k] i = (i + (k : Int)) % (files.length : Int) := by
  induction k with
  | zero =>
    intro i h0 h1
    simp only [Function.iterate_zero, id_eq, Nat.cast_zero, Int.add_zero]
    rw [Int.emod_eq_of_lt h0 h1]
  | succ k ih =>
    intro i h0 h1
    rw [Function.iterate_succ_apply]
    show (fun j => nextImage files j)^[k] (nextImage files i) = _
    rw [nextImage_step files i hne h0 h1]
    have hlpos : (0 : Int) < (files.length : Int) := by omega
    have hb0 : 0 ≤ (i + 1) % (files.length : Int) := Int.emod_nonneg _ (by omega)
    have hb1 : (i + 1) % (files.length : Int) < (files.length : Int) :=
      Int.emod_lt_of_pos _ hlpos
    rw [ih _ hb0 hb1, Int.emod_add_emod]
    congr 1
    push_cast
    ring

theorem prevImage_iterate (files : List Path) (hne : files ≠ []) (k : Nat) :
    ∀ i : Int, 0 ≤ i → i < (files.length : Int) →
    (fun j => prevImage files j)^[k] i = (i - (k : Int)) % (files.length : Int) := by
  induction k with
  | zero =>
    intro i h0 h1
    simp only [Function.iterate_zero, id_eq, Nat.cast_zero, Int.sub_zero]
    rw [Int.emod_eq_of_lt h0 h1]
  | succ k ih =>
    intro i h0 h1
    rw [Function.iterate_succ_apply]
    show (fun j => prevImage files j)^[k] (prevImage files i) = _
    rw [prevImage_step files i hne h0 h1]
    have hlpos : (0 : Int) < (files.length : Int) := by omega
    have hb0 : 0 ≤ (i - 1) % (files.length : Int) := Int.emod_nonneg _ (by omega)
    have hb1 : (i - 1) % (files.length : Int) < (files.length : Int) :=
      Int.emod_lt_of_pos _ hlpos
    rw [ih _ hb0 hb1, Int.sub_eq_add_neg, Int.emod_add_emod]
    congr 1
    push_cast
    ring

/-- C4: on a non-empty file list of length `N`, `next()` applied `N` times
from any in-range starting index returns to that index, and likewise for
`previous()`; and on the 3-element list the spec scenario holds:
`previous()` from index 0 wraps to index 2. -/
theorem c4_navigation_wraparound (files : List Path) (start : Int) (hne : files ≠ [])
    (h0 : 0 ≤ start) (h1 : start < (files.length : Int)) :
    (fun j => nextImage files j)^[files.length] start = start ∧
    (fun j => prevImage files j)^[files.length] start = start ∧
    prevImage [4, 5, 6] 0 = 2 := by
  refine ⟨?_, ?_, by decide⟩
  · rw [nextImage_iterate files hne files.length start h0 h1]
    have heq : start + (files.length : Int)
        = start + (files.length : Int) * 1 := by ring
    rw [heq, Int.add_mul_emod_self_left, Int.emod_eq_of_lt h0 h1]
  · rw [prevImage_iterate files hne files.length start h0 h1]
    have heq : start - (files.length : Int)
        = start + (files.length : Int) * (-1) := by ring
    rw [heq, Int.add_mul_emod_self_left, Int.emod_eq_of_lt h0 h1]

/-- Witness for C4 on the 3-element list of the spec scenario. -/
theorem c4_navigation_wraparound_witness :
    ([4, 5, 6] : List Path) ≠ [] ∧ (0 : Int) ≤ 0 ∧ (0 : Int) < (([4, 5, 6] : List Path).length : Int) ∧
    ((fun j => nextImage [4, 5, 6] j)^[3] 0 = 0 ∧
      (fun j => prevImage [4, 5, 6] j)^[3] 0 = 0 ∧
      prevImage [4, 5, 6] 0 = 2) :=
  ⟨by decide, by decide, by decide,
   c4_navigation_wraparound [4, 5, 6] 0 (by decide) (by decide) (by decide)⟩

/-- C5: after the trim loop the cache holds at most 12 entries; the loop
removes exactly the `size - 12` entries at the front of the sorted map,
i.e. it evicts in ascending-key order (each evicted key is smaller than
every surviving key); and the cache a prefetch cycle leaves behind on a
non-empty file list has at most 12 entries. -/
theorem c5_trim_eviction (c : Cache)
    (hs : List.Pairwise (fun a b : Path × BmpId => a.1 < b.1) c) :
    (trimCache c).length ≤ 12 ∧
    trimCache c = c.drop (c.length - 12) ∧
    (∀ e ∈ c.take (c.length - 12), ∀ k ∈ trimCache c, e.1 < k.1) ∧
    (∀ (decode : Path → Option Pixels) (files : List Path) (idx : Int) (s : CState),
      files ≠ [] → ((preloadAround decode files idx s).1).cache.length ≤ 12) := by
  refine ⟨trimCache_length_le c, trimCache_drop c, ?_, ?_⟩
  · intro e he k hk
    rw [trimCache_drop] at hk
    have hsplit : c.take (c.length - 12) ++ c.drop (c.length - 12) = c :=
      List.take_append_drop _ c
    rw [← hsplit] at hs
    exact (List.pairwise_append.mp hs).2.2 e he k hk
  · intro decode files idx s hne
    simp only [preloadAround, if_neg hne]
    exact trimCache_length_le _

/-- Witness for C5 on a concrete sorted 14-entry cache. -/
theorem c5_trim_eviction_witness :
    List.Pairwise (fun a b : Path × BmpId => a.1 < b.1)
      [(1, 1), (2, 2), (3, 3), (4, 4), (5, 5), (6, 6), (7, 7), (8, 8), (9, 9),
        (10, 10), (11, 11), (12, 12), (13, 13), (14, 14)] ∧
    (trimCache [(1, 1), (2, 2), (3, 3), (4, 4), (5, 5), (6, 6), (7, 7), (8, 8), (9, 9),
        (10, 10), (11, 11), (12, 12), (13, 13), (14, 14)]).length ≤ 12 ∧
    trimCache [(1, 1), (2, 2), (3, 3), (4, 4), (5, 5), (6, 6), (7, 7), (8, 8), (9, 9),
        (10, 10), (11, 11), (12, 12), (13, 13), (14, 14)]
      = [(3, 3), (4, 4), (5, 5), (6, 6), (7, 7), (8, 8), (9, 9),
        (10, 10), (11, 11), (12, 12), (13, 13), (14, 14)] := by
  refine ⟨by decide, ?_, by decide⟩
  exact (c5_trim_eviction _ (by decide)).1

/-! ### Navigation index invariant (C6) -/

theorem navInv_init : navInv ⟨[], 0⟩ :=
  ⟨fun hc => absurd rfl hc, fun _ => rfl⟩

theorem navStep_preserves (s : NavState) (op : NavOp) (h : navInv s) :
    navInv (navStep s op) := by
  have hidx0 : 0 ≤ s.index := by
    by_cases hf : s.files = []
    · rw [h.2 hf]
    · exact (h.1 hf).1
  cases op with
  | replace newFiles =>
    by_cases hnf : newFiles = []
    · simp only [navStep, enumFilesIndex, if_pos hnf]
      exact ⟨fun hc => absurd hnf hc, fun _ => rfl⟩
    · have hlpos : (0 : Int) < (newFiles.length : Int) := by
        have := List.length_pos.mpr hnf
        omega
      by_cases hc : (newFiles.length : Int) ≤ s.index
      · simp only [navStep, enumFilesIndex, if_neg hnf, if_pos hc]
        exact ⟨fun _ => ⟨le_refl 0, hlpos⟩, fun hcon => absurd hcon hnf⟩
      · simp only [navStep, enumFilesIndex, if_neg hnf, if_neg hc]
        refine ⟨fun _ => ⟨?_, ?_⟩, fun hcon => absurd hcon hnf⟩
        · show (0 : Int) ≤ s.index
          exact hidx0
        · show s.index < (newFiles.length : Int)
          omega
  | showAt target =>
    by_cases hf : s.files = []
    · simp only [navStep, showImageAtIndex, if_pos hf]
      exact ⟨fun hc => absurd hf hc, fun _ => h.2 hf⟩
    · have hlpos : (0 : Int) < (s.files.length : Int) := by
        have := List.length_pos.mpr hf
        omega
      refine ⟨fun _ => ?_, fun hcon => absurd hcon hf⟩
      simp only [navStep, showImageAtIndex, if_neg hf]
      by_cases hc1 : target < 0
      · rw [if_pos hc1]
        rw [if_neg (show ¬ ((s.files.length : Int) ≤ (s.files.length : Int) - 1) by omega)]
        constructor <;> omega
      · rw [if_neg hc1]
        by_cases hc2 : (s.files.length : Int) ≤ target
        · rw [if_pos hc2]
          exact ⟨le_refl 0, hlpos⟩
        · rw [if_neg hc2]
          exact ⟨by omega, by omega⟩

theorem navRun_preserves (ops : List NavOp) : ∀ s : NavState, navInv s →
    navInv (navRun s ops) := by
  induction ops with
  | nil => intro s h; exact h
  | cons op ops ih =>
    intro s h
    rw [navRun, List.foldl_cons]
    exact ih _ (navStep_preserves s op h)

/-- C6: the navigation index invariant is preserved by every file-set
replacement and every navigation operation, it holds in every state
reachable from the initial empty state, and a replacement whose new bounds
exclude the previous (non-negative) index resets the index to 0. -/
theorem c6_nav_index_invariant (s : NavState) (op : NavOp) (newFiles : List Path)
    (idx : Int) (h : navInv s) :
    navInv (navStep s op) ∧
    (∀ ops : List NavOp, navInv (navRun ⟨[], 0⟩ ops)) ∧
    (0 ≤ idx → newFiles ≠ [] → (newFiles.length : Int) ≤ idx →
      enumFilesIndex newFiles idx = 0) := by
  refine ⟨navStep_preserves s op h, fun ops => navRun_preserves ops _ navInv_init, ?_⟩
  intro _ hnf hge
  simp only [enumFilesIndex, if_neg hnf, if_pos hge]

/-- Witness for C6: a replacement shrinking a 3-element list to 2 elements
under index 2, which resets the index to 0. -/
theorem c6_nav_index_invariant_witness :
    navInv ⟨[4, 5, 6], 2⟩ ∧
    (navInv (navStep ⟨[4, 5, 6], 2⟩ (.replace [4, 5])) ∧
      (∀ ops : List NavOp, navInv (navRun ⟨[], 0⟩ ops)) ∧
      ((0 : Int) ≤ 2 → ([4, 5] : List Path) ≠ [] → (([4, 5] : List Path).length : Int) ≤ 2 →
        enumFilesIndex [4, 5] 2 = 0)) :=
  ⟨by decide, c6_nav_index_invariant ⟨[4, 5, 6], 2⟩ (.replace [4, 5]) [4, 5] 2 (by decide)⟩

/-! ### Rotate-and-resave (C8, C9) -/

theorem tmpPath_ne (p : Path) : tmpPath p ≠ p := by
  show (3 * p + 1 : Nat) ≠ (p : Nat)
  omega

theorem tmpExifPath_ne (p : Path) : tmpExifPath p ≠ p := by
  show (3 * p + 2 : Nat) ≠ (p : Nat)
  omega

theorem diskGet_set_self (d : Disk) (p : Path) (v : Pixels) :
    diskGet (diskSet d p v) p = some v := by
  induction d with
  | nil => simp [diskSet, diskGet]
  | cons kv rest ih =>
    obtain ⟨k, w⟩ := kv
    by_cases hk : k = p
    · simp [diskSet, if_pos hk, diskGet]
    · simp only [diskSet, if_neg hk, diskGet, if_neg hk, ih]

theorem diskGet_set_ne (d : Disk) (p q : Path) (v : Pixels) (h : q ≠ p) :
    diskGet (diskSet d q v) p = diskGet d p := by
  induction d with
  | nil => simp [diskSet, diskGet, h]
  | cons kv rest ih =>
    obtain ⟨k, w⟩ := kv
    by_cases hk : k = q
    · simp only [diskSet, if_pos hk, diskGet]
      rw [if_neg h, if_neg (by rw [hk]; exact h)]
    · simp only [diskSet, if_neg hk, diskGet, ih]

theorem diskGet_erase_ne (d : Disk) (p q : Path) (h : q ≠ p) :
    diskGet (diskErase d q) p = diskGet d p := by
  induction d with
  | nil => rfl
  | cons kv rest ih =>
    obtain ⟨k, w⟩ := kv
    by_cases hk : k = q
    · simp only [diskErase, if_pos hk, diskGet]
      rw [if_neg (by rw [hk]; exact h)]
    · simp only [diskErase, if_neg hk, diskGet, ih]

/-- When the stored index is in range (the invariant of C6), the path
`GetBitmapAt` resolves is exactly `g_files[g_index]`, the path
`Rotate90AndResave` operates on. -/
theorem getPath_eq_of_range (files : List Path) (gIndex : Int)
    (h0 : 0 ≤ gIndex) (h1 : gIndex < (files.length : Int)) :
    getPath files gIndex = files.getD gIndex.toNat 0 := by
  unfold getPath
  rw [normIdx_eq_emod _ _ (by omega), Int.emod_eq_of_lt h0 h1]

theorem getBitmapAt_fst_some_find (decode : Path → Option Pixels) (files : List Path)
    (idx : Int) (s : CState) (id : BmpId)
    (h : (getBitmapAt decode files idx s).1 = some id) :
    cacheFind ((getBitmapAt decode files idx s).2).cache (getPath files idx) = some id := by
  by_cases hne : files = []
  · rw [hne] at h
    simp [getBitmapAt] at h
  · revert h
    simp only [getBitmapAt, if_neg hne]
    rw [show files.getD (normIdx idx (files.length : Int)).toNat 0 = getPath files idx from rfl]
    cases hfind : cacheFind s.cache (getPath files idx) with
    | some id2 =>
      intro h
      have h2 : some id2 = some id := h
      show cacheFind s.cache (getPath files idx) = some id
      rw [hfind]
      exact h2
    | none =>
      cases hdec : decode (getPath files idx) with
      | some px =>
        intro h
        have h2 : some s.nextId = some id := h
        show cacheFind (cacheInsert s.cache (getPath files idx) s.nextId)
          (getPath files idx) = some id
        rw [← h2]
        exact cacheFind_insert_self s.cache (getPath files idx) s.nextId
      | none =>
        intro h
        exact Option.noConfusion (show (none : Option BmpId) = some id from h)

theorem getBitmapAt_cache_pairwise (decode : Path → Option Pixels) (files : List Path)
    (idx : Int) (s : CState)
    (h : List.Pairwise (fun a b : Path × BmpId => a.1 < b.1) s.cache) :
    List.Pairwise (fun a b : Path × BmpId => a.1 < b.1)
      ((getBitmapAt decode files idx s).2).cache := by
  simp only [getBitmapAt]
  split
  · exact h
  · split
    · exact h
    · split
      · exact cacheInsert_pairwise _ _ _ h
      · exact h

theorem heapGet_heapSet_self (h : Heap) (i : BmpId) (v : Pixels) :
    heapGet (heapSet h i v) i = v := by
  induction h with
  | nil => simp [heapSet, heapGet]
  | cons kv rest ih =>
    obtain ⟨j, w⟩ := kv
    by_cases hj : j = i
    · simp [heapSet, if_pos hj, heapGet]
    · simp only [heapSet, if_neg hj, heapGet, if_neg hj, ih]

theorem setExifOrientation_no_prop (loadOk propShort saveOk : Bool)
    (withOrientation : Pixels → Int → Pixels) (disk : Disk) (file : Path) (val : Int) :
    setExifOrientation loadOk false propShort saveOk withOrientation disk file val = disk := by
  cases loadOk <;> simp [setExifOrientation]

/-- C8: `Rotate90AndResave` writes the re-encoded image to the temporary
path and renames it over the original only on encode (save) success.  On
save failure the whole file system is untouched and the cache entry of the
current path is not invalidated; the cache erase happens only on success,
where (absent an EXIF orientation property to rewrite) the original path
ends up holding exactly the rotated pixels. -/
theorem c8_rotate_resave_atomic (decode : Path → Option Pixels) (rot : Pixels → Pixels)
    (withOrientation : Pixels → Int → Pixels) (oracles : RotOracles)
    (files : List Path) (gIndex : Int) (s s1 : CState) (disk : Disk) (id : BmpId)
    (hne : files ≠ []) (h0 : 0 ≤ gIndex) (h1 : gIndex < (files.length : Int))
    (hwf : List.Pairwise (fun a b : Path × BmpId => a.1 < b.1) s.cache)
    (hS : getBitmapAt decode files gIndex s = (some id, s1)) :
    (oracles.saveOk = false →
      rotate90AndResave decode rot withOrientation oracles files gIndex s disk
        = (⟨s1.cache, heapSet s1.heap id (rot (heapGet s1.heap id)), s1.nextId⟩, disk)) ∧
    (oracles.saveOk = false →
      diskGet (rotate90AndResave decode rot withOrientation oracles files gIndex s disk).2
        (files.getD gIndex.toNat 0) = diskGet disk (files.getD gIndex.toNat 0)) ∧
    (oracles.saveOk = false →
      cacheFind ((rotate90AndResave decode rot withOrientation oracles files gIndex s disk).1).cache
        (files.getD gIndex.toNat 0) = some id) ∧
    (oracles.saveOk = true →
      cacheFind ((rotate90AndResave decode rot withOrientation oracles files gIndex s disk).1).cache
        (files.getD gIndex.toNat 0) = none) ∧
    (oracles.saveOk = true → oracles.exifHasProp = false →
      diskGet (rotate90AndResave decode rot withOrientation oracles files gIndex s disk).2
        (files.getD gIndex.toNat 0) = some (rot (heapGet s1.heap id))) := by
  have hfind : cacheFind s1.cache (getPath files gIndex) = some id := by
    have hh := getBitmapAt_fst_some_find decode files gIndex s id (by rw [hS])
    rw [hS] at hh
    exact hh
  have hfind2 : cacheFind s1.cache (files.getD gIndex.toNat 0) = some id := by
    rw [← getPath_eq_of_range files gIndex h0 h1]
    exact hfind
  have hpw1 : List.Pairwise (fun a b : Path × BmpId => a.1 < b.1) s1.cache := by
    have hh := getBitmapAt_cache_pairwise decode files gIndex s hwf
    rw [hS] at hh
    exact hh
  refine ⟨?_, ?_, ?_, ?_, ?_⟩
  · intro hsv
    simp only [rotate90AndResave, if_neg hne, hS]
    rw [hsv, if_neg Bool.false_ne_true]
  · intro hsv
    simp only [rotate90AndResave, if_neg hne, hS]
    rw [hsv, if_neg Bool.false_ne_true]
  · intro hsv
    simp only [rotate90AndResave, if_neg hne, hS]
    rw [hsv, if_neg Bool.false_ne_true]
    exact hfind2
  · intro hsv
    simp only [rotate90AndResave, if_neg hne, hS]
    rw [hsv, if_pos rfl]
    exact cacheFind_erase_self s1.cache (files.getD gIndex.toNat 0) hpw1
  · intro hsv hprop
    simp only [rotate90AndResave, if_neg hne, hS]
    rw [hsv, if_pos rfl, hprop, setExifOrientation_no_prop]
    rw [diskGet_erase_ne _ _ _ (tmpPath_ne (files.getD gIndex.toNat 0))]
    rw [diskGet_set_self, heapGet_heapSet_self]

/-- C9: `Rotate90AndResave` mutates the shared cached bitmap in place:
the heap cell of the handle obtained from the cache holds the rotated
pixels after the operation regardless of whether the save succeeds, and
the cache entry for the current path (which keeps aliasing that handle)
is erased only on save success. -/
theorem c9_rotate_mutates_shared (decode : Path → Option Pixels) (rot : Pixels → Pixels)
    (withOrientation : Pixels → Int → Pixels) (oracles : RotOracles)
    (files : List Path) (gIndex : Int) (s s1 : CState) (disk : Disk) (id : BmpId)
    (hne : files ≠ []) (h0 : 0 ≤ gIndex) (h1 : gIndex < (files.length : Int))
    (hwf : List.Pairwise (fun a b : Path × BmpId => a.1 < b.1) s.cache)
    (hS : getBitmapAt decode files gIndex s = (some id, s1)) :
    ((rotate90AndResave decode rot withOrientation oracles files gIndex s disk).1).heap
        = heapSet s1.heap id (rot (heapGet s1.heap id)) ∧
    heapGet ((rotate90AndResave decode rot withOrientation oracles files gIndex s disk).1).heap id
        = rot (heapGet s1.heap id) ∧
    (oracles.saveOk = false →
      cacheFind ((rotate90AndResave decode rot withOrientation oracles files gIndex s disk).1).cache
        (files.getD gIndex.toNat 0) = some id) ∧
    (oracles.saveOk = true →
      cacheFind ((rotate90AndResave decode rot withOrientation oracles files gIndex s disk).1).cache
        (files.getD gIndex.toNat 0) = none) := by
  have hfind : cacheFind s1.cache (getPath files gIndex) = some id := by
    have hh := getBitmapAt_fst_some_find decode files gIndex s id (by rw [hS])
    rw [hS] at hh
    exact hh
  have hfind2 : cacheFind s1.cache (files.getD gIndex.toNat 0) = some id := by
    rw [← getPath_eq_of_range files gIndex h0 h1]
    exact hfind
  have hpw1 : List.Pairwise (fun a b : Path × BmpId => a.1 < b.1) s1.cache := by
    have hh := getBitmapAt_cache_pairwise decode files gIndex s hwf
    rw [hS] at hh
    exact hh
  refine ⟨?_, ?_, ?_, ?_⟩
  · simp only [rotate90AndResave, if_neg hne, hS]
    split <;> rfl
  · simp only [rotate90AndResave, if_neg hne, hS]
    split <;> exact heapGet_heapSet_self _ _ _
  · intro hsv
    simp only [rotate90AndResave, if_neg hne, hS]
    rw [hsv, if_neg Bool.false_ne_true]
    exact hfind2
  · intro hsv
    simp only [rotate90AndResave, if_neg hne, hS]
    rw [hsv, if_pos rfl]
    exact cacheFind_erase_self s1.cache (files.getD gIndex.toNat 0) hpw1

/-- Concrete pixel rotation for the witnesses. -/
def rot0 : Pixels → Pixels := fun px => px + 1

/-- Concrete orientation re-encoding for the witnesses. -/
def wo0 : Pixels → Int → Pixels := fun px _ => px

/-- Witness for C8 with save failure (original disk untouched, entry kept)
and with save success without an EXIF property (entry erased, original
path holds the rotated pixels). -/
theorem c8_rotate_resave_atomic_witness :
    (rotate90AndResave dec0 rot0 wo0 ⟨false, true, true, true, true⟩ [8, 9] 0 initCState
        [(8, 500)]).2 = [(8, 500)] ∧
    cacheFind ((rotate90AndResave dec0 rot0 wo0 ⟨false, true, true, true, true⟩ [8, 9] 0
        initCState [(8, 500)]).1).cache 8 = some 0 ∧
    cacheFind ((rotate90AndResave dec0 rot0 wo0 ⟨true, true, false, true, true⟩ [8, 9] 0
        initCState [(8, 500)]).1).cache 8 = none ∧
    diskGet (rotate90AndResave dec0 rot0 wo0 ⟨true, true, false, true, true⟩ [8, 9] 0
        initCState [(8, 500)]).2 8 = some (rot0 80) := by
  refine ⟨?_, ?_, ?_, ?_⟩
  · have h := (c8_rotate_resave_atomic dec0 rot0 wo0 ⟨false, true, true, true, true⟩ [8, 9] 0
      initCState ⟨[(8, 0)], [(0, 80)], 1⟩ [(8, 500)] 0 (by decide) (by decide) (by decide)
      (by decide) (by decide)).1 rfl
    rw [h]
  · exact (c8_rotate_resave_atomic dec0 rot0 wo0 ⟨false, true, true, true, true⟩ [8, 9] 0
      initCState ⟨[(8, 0)], [(0, 80)], 1⟩ [(8, 500)] 0 (by decide) (by decide) (by decide)
      (by decide) (by decide)).2.2.1 rfl
  · exact (c8_rotate_resave_atomic dec0 rot0 wo0 ⟨true, true, false, true, true⟩ [8, 9] 0
      initCState ⟨[(8, 0)], [(0, 80)], 1⟩ [(8, 500)] 0 (by decide) (by decide) (by decide)
      (by decide) (by decide)).2.2.2.1 rfl
  · exact (c8_rotate_resave_atomic dec0 rot0 wo0 ⟨true, true, false, true, true⟩ [8, 9] 0
      initCState ⟨[(8, 0)], [(0, 80)], 1⟩ [(8, 500)] 0 (by decide) (by decide) (by decide)
      (by decide) (by decide)).2.2.2.2 rfl rfl

/-- Witness for C9: the cached bitmap cell holds the rotated pixels after
the operation both on save failure and on save success; the entry is kept
on failure and erased on success. -/
theorem c9_rotate_mutates_shared_witness :
    heapGet ((rotate90AndResave dec0 rot0 wo0 ⟨false, true, true, true, true⟩ [8, 9] 0
        initCState [(8, 500)]).1).heap 0 = rot0 80 ∧
    heapGet ((rotate90AndResave dec0 rot0 wo0 ⟨true, true, true, true, true⟩ [8, 9] 0
        initCState [(8, 500)]).1).heap 0 = rot0 80 ∧
    cacheFind ((rotate90AndResave dec0 rot0 wo0 ⟨false, true, true, true, true⟩ [8, 9] 0
        initCState [(8, 500)]).1).cache 8 = some 0 ∧
    cacheFind ((rotate90AndResave dec0 rot0 wo0 ⟨true, true, true, true, true⟩ [8, 9] 0
        initCState [(8, 500)]).1).cache 8 = none := by
  refine ⟨?_, ?_, ?_, ?_⟩
  · exact (c9_rotate_mutates_shared dec0 rot0 wo0 ⟨false, true, true, true, true⟩ [8, 9] 0
      initCState ⟨[(8, 0)], [(0, 80)], 1⟩ [(8, 500)] 0 (by decide) (by decide) (by decide)
      (by decide) (by decide)).2.1
  · exact (c9_rotate_mutates_shared dec0 rot0 wo0 ⟨true, true, true, true, true⟩ [8, 9] 0
      initCState ⟨[(8, 0)], [(0, 80)], 1⟩ [(8, 500)] 0 (by decide) (by decide) (by decide)
      (by decide) (by decide)).2.1
  · exact (c9_rotate_mutates_shared dec0 rot0 wo0 ⟨false, true, true, true, true⟩ [8, 9] 0
      initCState ⟨[(8, 0)], [(0, 80)], 1⟩ [(8, 500)] 0 (by decide) (by decide) (by decide)
      (by decide) (by decide)).2.2.1 rfl
  · exact (c9_rotate_mutates_shared dec0 rot0 wo0 ⟨true, true, true, true, true⟩ [8, 9] 0
      initCState ⟨[(8, 0)], [(0, 80)], 1⟩ [(8, 500)] 0 (by decide) (by decide) (by decide)
      (by decide) (by decide)).2.2.2 rfl

/-- C1 (evaluation of the code at the spec scenario): for zoom mode Fit
(`g_zoom = 1`) with a 1600×900 source in an 800×600 viewport and
orientation 1, `CalcRectAndMatrix` returns the destination rectangle
800×337 at vertical offset 131 and the identity matrix.  The fit-wide
branch computes the height as `wh / imgAspect` (viewport height divided by
the image aspect ratio) instead of `ww / imgAspect`, so the result is not
the aspect-preserving 800×450 at offset 75 stated by the spec. -/
theorem c1_fit_wide_eval :
    calcRectAndMatrix 1 1600 900 1 0 0 800 600
      = (⟨0, 131, 800, 337⟩, Mat.identity) := by
  norm_num [calcRectAndMatrix, cint, Mat.identity]

/-- C7 (evaluation of the code at a degenerate viewport): with zoom mode
Actual (`g_zoom = 0`), a 100×50 source, orientation 1 and a 0×0 viewport,
`CalcRectAndMatrix` returns the full-size 100×50 destination rectangle at
offset (-50, -25) — there is no guard producing a zero-area rectangle. -/
theorem c7_degenerate_viewport_eval :
    calcRectAndMatrix 0 100 50 1 0 0 0 0
      = (⟨-50, -25, 100, 50⟩, Mat.identity) := by
  norm_num [calcRectAndMatrix, cint, Mat.identity]

end ImageView
